import Mathlib

/-!
Verification development for the schediazo drawing library.

The definitions below are a shallow embedding of the relevant parts of the
source: `part.py` (the `PartDict` ordered keyed container), `transforms.py`
(the affine transform algebra), `align.py` (the two-point alignment solver),
`attributes.py` (stroke/fill opacity handling), `units.py` and `paths.py`
(path commands and their SVG serialisation).  Python runtime failures
(KeyError, TypeError, ValueError, AttributeError) are modelled with
`Except PyErr`.
-/

/-- Python exception kinds raised by the embedded code.  `nonTermination` is
used by the fuelled iteration walk for a traversal that does not reach the
end of the list within the fuel bound (in Python such a walk would loop
forever); it never occurs on consistent containers. -/
inductive PyErr where
  | keyError
  | typeError
  | valueError
  | attributeError
  | undefinedUnitError
  | nonTermination
deriving DecidableEq, Repr

deriving instance DecidableEq for Except

/-- `_DoublyLinkedListNode` from part.py: per-node `prev`/`next` keys and the
node's own key.  Python stores keys as strings; an absent link is `None`,
modelled as `Option.none`. -/
structure DNode where
  prev : Option String
  next : Option String
  key : String
deriving DecidableEq, Repr

/-- Association lists model Python dicts: the store behind both the
`PartDict.__map` node table and the `dict` value storage. -/
abbrev PyDict (β : Type) := List (String × β)

def alistLookup {β : Type} : PyDict β → String → Option β
  | [], _ => none
  | (a, b) :: t, k => if a = k then some b else alistLookup t k

def alistMem {β : Type} (m : PyDict β) (k : String) : Bool :=
  (alistLookup m k).isSome

/-- `d[k] = v`: update in place when the key exists, append otherwise. -/
def alistSet {β : Type} : PyDict β → String → β → PyDict β
  | [], k, v => [(k, v)]
  | (a, b) :: t, k, v => if a = k then (a, v) :: t else (a, b) :: alistSet t k v

/-- `d.pop(k)` / `del d[k]`: drop the entry for `k`. -/
def alistPop {β : Type} : PyDict β → String → PyDict β
  | [], _ => []
  | (a, b) :: t, k => if a = k then t else (a, b) :: alistPop t k

/-- `m[k]` on the node map: raises `KeyError` when the key is absent. -/
def alistGetE (m : PyDict DNode) (k : String) : Except PyErr DNode :=
  match alistLookup m k with
  | some n => .ok n
  | none => .error .keyError

/-- `m[k].field = v` where `k` may be `None` (indexing a dict with `None`
raises `KeyError` since no key is `None`). -/
def mapUpdate (m : PyDict DNode) (k? : Option String) (f : DNode → DNode) :
    Except PyErr (PyDict DNode) :=
  match k? with
  | none => .error .keyError
  | some k =>
    match alistLookup m k with
    | none => .error .keyError
    | some n => .ok (alistSet m k (f n))

def mapSetNext (m : PyDict DNode) (k? v : Option String) : Except PyErr (PyDict DNode) :=
  mapUpdate m k? (fun n => { n with next := v })

def mapSetPrev (m : PyDict DNode) (k? v : Option String) : Except PyErr (PyDict DNode) :=
  mapUpdate m k? (fun n => { n with prev := v })

/-- State of a `PartDict` (part.py lines 103-124): the inherited `dict`
entries, the `__map` node table, and the `__head`/`__tail` keys.  `back` and
`front` mirror the `__back`/`__front` attributes that `_list_remove`'s
single-element branch creates (name mangling makes them *new* attributes,
distinct from `__head`/`__tail`); they are never read. -/
structure PartDict (V : Type) where
  entries : PyDict V
  map : PyDict DNode
  head : Option String
  tail : Option String
  back : Option String
  front : Option String
deriving DecidableEq, Repr

namespace PartDict

variable {V : Type}

/-- `PartDict.__init__`: empty dict, empty map, no head or tail. -/
def empty : PartDict V := ⟨[], [], none, none, none, none⟩

/-- `_list_insert_tail` (part.py lines 309-336). -/
def listInsertTail (s : PartDict V) (k : String) : Except PyErr (PartDict V) :=
  if s.head = none ∧ s.tail = none then
    .ok { s with map := alistSet s.map k ⟨none, none, k⟩, head := some k, tail := some k }
  else do
    let m ← mapSetNext s.map s.tail (some k)
    .ok { s with map := alistSet m k ⟨s.tail, none, k⟩, tail := some k }

/-- `_list_insert_head` (part.py lines 338-365). -/
def listInsertHead (s : PartDict V) (k : String) : Except PyErr (PartDict V) :=
  if s.head = none ∧ s.tail = none then
    .ok { s with map := alistSet s.map k ⟨none, none, k⟩, head := some k, tail := some k }
  else do
    let m ← mapSetPrev s.map s.head (some k)
    .ok { s with map := alistSet m k ⟨none, s.head, k⟩, head := some k }

/-- `_list_remove` (part.py lines 367-414).  Note the single-element branch:
the source pops the node and then assigns `self.__back = None` and
`self.__front = None`; `__head` and `__tail` are left untouched (the comment
above that branch says "set head/tail to None", but those are not the
attributes the code writes to). -/
def listRemove (s : PartDict V) (k : String) : Except PyErr (PartDict V) :=
  if ¬ alistMem s.map k then .error .keyError
  else if s.head ≠ none ∧ s.tail ≠ none then
    if s.map.length = 1 then
      .ok { s with map := alistPop s.map k, back := none, front := none }
    else if s.head = some k then do
      let node ← alistGetE s.map k
      let m ← mapSetPrev s.map node.next none
      .ok { s with map := alistPop m k, head := node.next }
    else if s.tail = some k then do
      let node ← alistGetE s.map k
      let m ← mapSetNext s.map node.prev none
      .ok { s with map := alistPop m k, tail := node.prev }
    else do
      let node ← alistGetE s.map k
      let m ← mapSetPrev s.map node.next node.prev
      let m ← mapSetNext m node.prev node.next
      .ok { s with map := alistPop m k }
  else .ok s

/-- `_list_insert_after` (part.py lines 416-451).  When the map holds at most
one node the body under `if len(self.__map)>1:` is skipped entirely and the
key is not inserted. -/
def listInsertAfter (s : PartDict V) (k : String) (afterKey : Option String) :
    Except PyErr (PartDict V) :=
  match afterKey with
  | none => .error .keyError
  | some a =>
    if ¬ alistMem s.map a then .error .keyError
    else if s.map.length > 1 then
      if s.tail = some a then s.listInsertTail k
      else do
        let anode ← alistGetE s.map a
        let tailward := anode.next
        let m ← mapSetNext s.map (some a) (some k)
        let m ← mapSetPrev m tailward (some k)
        .ok { s with map := alistSet m k ⟨some a, tailward, k⟩ }
    else .ok s

/-- `_list_insert_before` (part.py lines 453-488); same skipped-body shape as
`_list_insert_after`. -/
def listInsertBefore (s : PartDict V) (k : String) (beforeKey : Option String) :
    Except PyErr (PartDict V) :=
  match beforeKey with
  | none => .error .keyError
  | some b =>
    if ¬ alistMem s.map b then .error .keyError
    else if s.map.length > 1 then
      if s.head = some b then s.listInsertHead k
      else do
        let bnode ← alistGetE s.map b
        let headward := bnode.prev
        let m ← mapUpdate s.map headward (fun n => { n with next := some k })
        let m ← mapSetPrev m (some b) (some k)
        .ok { s with map := alistSet m k ⟨headward, some b, k⟩ }
    else .ok s

/-- `_list_movetohead` (part.py lines 490-510). -/
def listMoveToHead (s : PartDict V) (k : String) : Except PyErr (PartDict V) :=
  if ¬ alistMem s.map k then .error .keyError
  else if s.map.length > 1 ∧ ¬ s.head = some k then do
    let s ← s.listRemove k
    s.listInsertHead k
  else .ok s

/-- `_list_movetotail` (part.py lines 512-532). -/
def listMoveToTail (s : PartDict V) (k : String) : Except PyErr (PartDict V) :=
  if ¬ alistMem s.map k then .error .keyError
  else if s.map.length > 1 ∧ ¬ s.tail = some k then do
    let s ← s.listRemove k
    s.listInsertTail k
  else .ok s

/-- `_list_movetowardstail` (part.py lines 534-558): read the key's `next`,
remove the key, then insert it after that recorded neighbour. -/
def listMoveTowardsTail (s : PartDict V) (k : String) : Except PyErr (PartDict V) :=
  if ¬ alistMem s.map k then .error .keyError
  else if s.map.length > 1 ∧ ¬ s.tail = some k then do
    let node ← alistGetE s.map k
    let s ← s.listRemove k
    s.listInsertAfter k node.next
  else .ok s

/-- `_list_movetowardshead` (part.py lines 560-584). -/
def listMoveTowardsHead (s : PartDict V) (k : String) : Except PyErr (PartDict V) :=
  if ¬ alistMem s.map k then .error .keyError
  else if s.map.length > 1 ∧ ¬ s.head = some k then do
    let node ← alistGetE s.map k
    let s ← s.listRemove k
    s.listInsertBefore k node.prev
  else .ok s

/-- `PartDict.__setitem__` (part.py lines 168-189): values are type-checked
to be parts (modelled by the value type `V`); a key not yet in the dict is
first appended at the tail of the list, then the dict entry is written. -/
def setitem (s : PartDict V) (k : String) (v : V) : Except PyErr (PartDict V) := do
  let s ← if alistMem s.entries k then .ok s else s.listInsertTail k
  .ok { s with entries := alistSet s.entries k v }

/-- `PartDict.__delitem__` (part.py lines 217-226): `dict.__delitem__` runs
first (raising `KeyError` on an absent key and leaving everything unchanged),
then `_list_remove`. -/
def delitem (s : PartDict V) (k : String) : Except PyErr (PartDict V) :=
  if alistMem s.entries k then
    listRemove { s with entries := alistPop s.entries k } k
  else .error .keyError

/-- `PartDict.movetofront` (part.py lines 236-253). -/
def movetofront (s : PartDict V) (k : String) : Except PyErr (PartDict V) :=
  if ¬ alistMem s.map k then .error .keyError else s.listMoveToTail k

/-- `PartDict.movetoback` (part.py lines 255-271). -/
def movetoback (s : PartDict V) (k : String) : Except PyErr (PartDict V) :=
  if ¬ alistMem s.map k then .error .keyError else s.listMoveToHead k

/-- `PartDict.moveforward` (part.py lines 273-289). -/
def moveforward (s : PartDict V) (k : String) : Except PyErr (PartDict V) :=
  if ¬ alistMem s.map k then .error .keyError else s.listMoveTowardsTail k

/-- `PartDict.movebackward` (part.py lines 291-307). -/
def movebackward (s : PartDict V) (k : String) : Except PyErr (PartDict V) :=
  if ¬ alistMem s.map k then .error .keyError else s.listMoveTowardsHead k

/-- One fuelled walk step chain for `__iter__`/`__reversed__`: follow the
given link selector from the current key until `None`.  A missing key raises
`KeyError` exactly as `self.__map[current]` does. -/
def iterAux (m : PyDict DNode) (link : DNode → Option String) :
    Nat → Option String → Except PyErr (List String)
  | _, none => .ok []
  | 0, some _ => .error .nonTermination
  | fuel + 1, some k => do
    let n ← alistGetE m k
    let rest ← iterAux m link fuel (link n)
    .ok (k :: rest)

/-- `PartDict.__iter__` (part.py lines 191-202): walk from `__head` following
`next`. -/
def iterate (s : PartDict V) : Except PyErr (List String) :=
  iterAux s.map (fun n => n.next) (s.map.length + 1) s.head

/-- `PartDict.__reversed__` (part.py lines 204-215): walk from `__tail`
following `prev`. -/
def iterateRev (s : PartDict V) : Except PyErr (List String) :=
  iterAux s.map (fun n => n.prev) (s.map.length + 1) s.tail

end PartDict

/-- The container state reached by `setitem "a"; setitem "b"; moveforward "a"`
on an empty `PartDict`: the dict still holds both keys, but the node map,
head and tail only know about `"b"`. -/
def orphanA : PartDict Unit :=
  ⟨[("a", ()), ("b", ())], [("b", ⟨none, none, "b"⟩)], some "b", some "b", none, none⟩

/-- C1: the container invariants do not survive every key-present operation
sequence.  After `setitem "a"; setitem "b"; moveforward "a"`, the key `"a"`
is still a member of the dict but has no node in the key-to-node map and is
unreachable from the head — an orphaned node.  (`moveforward` removes the
node and then `_list_insert_after` silently skips reinsertion because the map
momentarily holds a single node.)  Forward iteration yields only `["b"]`. -/
theorem C1_moveforward_orphans_node :
    (do
      let s ← (PartDict.empty (V := Unit)).setitem "a" ()
      let s ← s.setitem "b" ()
      s.moveforward "a") = Except.ok orphanA
    ∧ orphanA.iterate = .ok ["b"]
    ∧ orphanA.iterateRev = .ok ["b"]
    ∧ alistMem orphanA.entries "a" = true
    ∧ alistMem orphanA.map "a" = false := by decide

/-- The container state reached by `setitem "a"; delitem "a"` on an empty
`PartDict`: dict and node map are empty but head and tail still name the
removed key. -/
def staleOne : PartDict Unit := ⟨[], [], some "a", some "a", none, none⟩

/-- C2: deleting an absent key raises `KeyError` (first conjunct), but
deleting the single present key leaves the head and tail pointers aimed at
the removed key (`_list_remove`'s one-element branch assigns `__back` and
`__front` instead of `__head` and `__tail`), so the next forward or reverse
iteration raises `KeyError` instead of reflecting the now-empty key set. -/
theorem C2_delete_sole_key_leaves_stale_head_tail :
    (PartDict.empty (V := Unit)).delitem "a" = .error .keyError
    ∧ (do
        let s ← (PartDict.empty (V := Unit)).setitem "a" ()
        s.delitem "a") = Except.ok staleOne
    ∧ staleOne.iterate = .error .keyError
    ∧ staleOne.iterateRev = .error .keyError := by decide

/-- The container state reached by `setitem "a"; setitem "b"; movebackward "b"`
on an empty `PartDict`: only `"a"` survives in the node map. -/
def droppedB : PartDict Unit :=
  ⟨[("a", ()), ("b", ())], [("a", ⟨none, none, "a"⟩)], some "a", some "a", none, none⟩

/-- C3: in a container of exactly two elements, `movebackward` of the tail
key does not swap it with its head-side neighbour: the key is removed and
then `_list_insert_before` skips reinsertion because the map momentarily
holds one node.  Iterating afterwards yields `["a"]`, not the swapped order
`["b", "a"]` the claim requires; the moved key has left the iteration
sequence entirely (and `moveforward` of the head key fails symmetrically,
witnessed under C1). -/
theorem C3_movebackward_two_elements_drops_key :
    (do
      let s ← (PartDict.empty (V := Unit)).setitem "a" ()
      let s ← s.setitem "b" ()
      s.movebackward "b") = Except.ok droppedB
    ∧ droppedB.iterate = .ok ["a"]
    ∧ droppedB.iterate ≠ .ok ["b", "a"] := by decide

/-! ### Refinement of the linked list by a key sequence

`listRep s l` says the node map, head and tail of `s` encode exactly the key
sequence `l`; `represents s l` additionally synchronises the dict entries.
These are the invariants the spec asserts for every container, and the
positive theorems below (iteration, re-insertion) are proved from them. -/

/-- Key stored after `x` in the sequence `l`. -/
def nextInList (l : List String) (x : String) : Option String :=
  l[l.indexOf x + 1]?

/-- Key stored before `x` in the sequence `l`. -/
def prevInList (l : List String) (x : String) : Option String :=
  if l.indexOf x = 0 then none else l[l.indexOf x - 1]?

/-- The node the doubly linked list must hold for key `x` when the container
order is `l`. -/
def canonNode (l : List String) (x : String) : DNode :=
  ⟨prevInList l x, nextInList l x, x⟩

/-- The `__map`/`__head`/`__tail` state encodes the key sequence `l`. -/
@[reducible] def PartDict.listRep {V : Type} (s : PartDict V) (l : List String) : Prop :=
  l.Nodup ∧
  s.head = l.head? ∧
  s.tail = l.getLast? ∧
  (s.map.map Prod.fst).Perm l ∧
  ∀ x ∈ l, alistLookup s.map x = some (canonNode l x)

/-- Full container consistency: the linked list encodes `l` and the dict
holds exactly the keys of `l`. -/
@[reducible] def PartDict.represents {V : Type} (s : PartDict V) (l : List String) : Prop :=
  s.listRep l ∧ (s.entries.map Prod.fst).Perm l

theorem alistLookup_isSome_iff {β : Type} (m : PyDict β) (k : String) :
    (alistLookup m k).isSome ↔ k ∈ m.map Prod.fst := by
  induction m with
  | nil => simp [alistLookup]
  | cons p t ih =>
    obtain ⟨a, b⟩ := p
    by_cases h : a = k
    · subst h; simp [alistLookup]
    · simp [alistLookup, h, ih, Ne.symm h]

theorem alistMem_iff {β : Type} (m : PyDict β) (k : String) :
    alistMem m k = true ↔ k ∈ m.map Prod.fst := by
  rw [alistMem, alistLookup_isSome_iff]

theorem alistSet_keys_of_mem {β : Type} {m : PyDict β} {k : String} (v : β)
    (h : k ∈ m.map Prod.fst) :
    (alistSet m k v).map Prod.fst = m.map Prod.fst := by
  induction m with
  | nil => simp at h
  | cons p t ih =>
    obtain ⟨a, b⟩ := p
    by_cases hak : a = k
    · simp [alistSet, hak]
    · simp only [List.map_cons, List.mem_cons] at h
      rcases h with h | h
    
      · exact absurd h.symm hak
      · simp [alistSet, hak, ih h]

theorem alistSet_keys_of_not_mem {β : Type} {m : PyDict β} {k : String} (v : β)
    (h : k ∉ m.map Prod.fst) :
    (alistSet m k v).map Prod.fst = m.map Prod.fst ++ [k] := by
  induction m with
  | nil => simp [alistSet]
  | cons p t ih =>
    obtain ⟨a, b⟩ := p
    simp only [List.map_cons, List.mem_cons, not_or] at h
    simp [alistSet, Ne.symm h.1, ih h.2]

theorem alistLookup_set_self {β : Type} (m : PyDict β) (k : String) (v : β) :
    alistLookup (alistSet m k v) k = some v := by
  induction m with
  | nil => simp [alistSet, alistLookup]
  | cons p t ih =>
    obtain ⟨a, b⟩ := p
    by_cases hak : a = k
    · simp [alistSet, alistLookup, hak]
    · simp [alistSet, alistLookup, hak, ih]

theorem alistLookup_set_ne {β : Type} (m : PyDict β) {k k2 : String} (v : β)
    (h : k2 ≠ k) : alistLookup (alistSet m k v) k2 = alistLookup m k2 := by
  induction m with
  | nil => simp [alistSet, alistLookup, Ne.symm h]
  | cons p t ih =>
    obtain ⟨a, b⟩ := p
    by_cases hak : a = k
    · subst hak
      simp [alistSet, alistLookup, Ne.symm h]
    · by_cases hak2 : a = k2
      · subst hak2
        simp [alistSet, alistLookup, hak]
      · simp [alistSet, alistLookup, hak, hak2, ih]

/-- Fuelled walk correctness: if from every position `i` of `L` the stored
node's link points to position `i + 1`, then the walk started at position
`i` returns the suffix `L.drop i`, for any sufficient fuel. -/
theorem iterAux_walk (m : PyDict DNode) (link : DNode → Option String) (L : List String)
    (hnode : ∀ (i : Nat) (x : String), L[i]? = some x →
      ∃ n, alistLookup m x = some n ∧ link n = L[i + 1]?) :
    ∀ fuel i, (L.drop i).length ≤ fuel →
      PartDict.iterAux m link fuel L[i]? = .ok (L.drop i) := by
  intro fuel
  induction fuel with
  | zero =>
    intro i hle
    have hlen : L.length ≤ i := by
      rw [List.length_drop] at hle; omega
    have hnone : L[i]? = none := List.getElem?_eq_none_iff.mpr hlen
    have hdrop : L.drop i = [] := List.drop_eq_nil_of_le hlen
    rw [hnone, hdrop]
    rfl
  | succ fuel ih =>
    intro i hle
    cases hx : L[i]? with
    | none =>
      have hlen : L.length ≤ i := List.getElem?_eq_none_iff.mp hx
      rw [List.drop_eq_nil_of_le hlen]
      rfl
    | some x =>
      obtain ⟨hi, hxi⟩ := List.getElem?_eq_some_iff.mp hx
      obtain ⟨n, hn, hlink⟩ := hnode i x hx
      have hrest : PartDict.iterAux m link fuel L[i + 1]? = .ok (L.drop (i + 1)) := by
        apply ih
        rw [List.length_drop] at hle ⊢
        omega
      rw [PartDict.iterAux]
      rw [List.drop_eq_getElem_cons hi, hxi]
      simp only [alistGetE, hn]
      show (do
          let rest ← PartDict.iterAux m link fuel (link n)
          (Except.ok (x :: rest) : Except PyErr (List String))) =
        Except.ok (x :: List.drop (i + 1) L)
      rw [hlink, hrest]
      rfl

/-- On a consistent container, `__iter__` yields exactly the represented key
sequence. -/
theorem PartDict.listRep_iterate {V : Type} (s : PartDict V) (l : List String)
    (h : s.listRep l) : s.iterate = .ok l := by
  obtain ⟨hnd, hhead, htail, hperm, hnodes⟩ := h
  have hlen : s.map.length = l.length := by simpa using hperm.length_eq
  have hwalk := iterAux_walk s.map (fun n => n.next) l ?hnode (s.map.length + 1) 0 ?hle
  case hnode =>
    intro i x hx
    obtain ⟨hi, hxi⟩ := List.getElem?_eq_some_iff.mp hx
    refine ⟨canonNode l x, hnodes x (List.getElem?_mem hx), ?_⟩
    show nextInList l x = l[i + 1]?
    rw [nextInList]
    congr 2
    rw [← hxi]
    exact List.indexOf_getElem hnd i hi
  case hle =>
    rw [List.drop_zero]
    omega
  rw [List.drop_zero] at hwalk
  rw [PartDict.iterate, hhead, List.head?_eq_getElem?]
  exact hwalk

/-- On a consistent container, `__reversed__` yields exactly the reversed key
sequence. -/
theorem PartDict.listRep_iterateRev {V : Type} (s : PartDict V) (l : List String)
    (h : s.listRep l) : s.iterateRev = .ok l.reverse := by
  obtain ⟨hnd, hhead, htail, hperm, hnodes⟩ := h
  have hlen : s.map.length = l.length := by simpa using hperm.length_eq
  have hwalk := iterAux_walk s.map (fun n => n.prev) l.reverse ?hnode (s.map.length + 1) 0 ?hle
  case hnode =>
    intro i x hx
    obtain ⟨hi, hxi⟩ := List.getElem?_eq_some_iff.mp hx
    rw [List.length_reverse] at hi
    have hrev : l.reverse[i]? = l[l.length - 1 - i]? := List.getElem?_reverse hi
    have hxj : l[l.length - 1 - i]? = some x := by rw [← hrev, hx]
    obtain ⟨hj, hxj2⟩ := List.getElem?_eq_some_iff.mp hxj
    have hmem : x ∈ l := List.getElem?_mem hxj
    have hidx : l.indexOf x = l.length - 1 - i := by
      rw [← hxj2]
      exact List.indexOf_getElem hnd _ hj
    refine ⟨canonNode l x, hnodes x hmem, ?_⟩
    show prevInList l x = l.reverse[i + 1]?
    rw [prevInList, hidx]
    by_cases h0 : l.length - 1 - i = 0
    · have hout : l.reverse.length ≤ i + 1 := by
        rw [List.length_reverse]; omega
      rw [if_pos h0]
      exact (List.getElem?_eq_none_iff.mpr hout).symm
    · have hi1 : i + 1 < l.length := by omega
      rw [if_neg h0]
      rw [List.getElem?_reverse hi1]
      congr 1
  case hle =>
    rw [List.drop_zero, List.length_reverse]
    omega
  rw [List.drop_zero] at hwalk
  rw [PartDict.iterateRev, htail]
  have hstart : l.getLast? = l.reverse[0]? := by
    cases l with
    | nil => rfl
    | cons a t =>
      rw [List.getLast?_eq_getElem?, List.getElem?_reverse (by simp : 0 < (a :: t).length)]
      simp
  rw [hstart]
  exact hwalk

/-- Appending a fresh key at the tail only changes the canonical node of the
old last key (its `next` now points at the new key); every other old key
keeps its node. -/
theorem canonNode_append (l : List String) (k x : String) (hnd : l.Nodup)
    (hx : x ∈ l) :
    canonNode (l ++ [k]) x =
      if l.getLast? = some x then { canonNode l x with next := some k }
      else canonNode l x := by
  have hlt : l.indexOf x < l.length := List.indexOf_lt_length.mpr hx
  have happ : (l ++ [k]).indexOf x = l.indexOf x := List.indexOf_append_of_mem hx
  have hprev : prevInList (l ++ [k]) x = prevInList l x := by
    rw [prevInList, prevInList, happ]
    by_cases h0 : l.indexOf x = 0
    · rw [if_pos h0, if_pos h0]
    · rw [if_neg h0, if_neg h0, List.getElem?_append_left (by omega)]
  have hnext : nextInList (l ++ [k]) x =
      if l.getLast? = some x then some k else nextInList l x := by
    rw [nextInList, happ]
    by_cases hlast : l.getLast? = some x
    · rw [if_pos hlast]
      have hsome : l[l.length - 1]? = some x := by
        rw [← List.getLast?_eq_getElem?]; exact hlast
      obtain ⟨hj, hxx⟩ := List.getElem?_eq_some_iff.mp hsome
      have hidx : l.indexOf x = l.length - 1 := by
        rw [← hxx]; exact List.indexOf_getElem hnd _ hj
      rw [hidx, show l.length - 1 + 1 = l.length by omega]
      exact List.getElem?_concat_length l k
    · rw [if_neg hlast, nextInList]
      have hne : l.indexOf x + 1 ≠ l.length := by
        intro hcontra
        apply hlast
        rw [List.getLast?_eq_getElem?, show l.length - 1 = l.indexOf x by omega,
          List.getElem?_eq_getElem hlt, List.getElem_indexOf hlt]
      rw [List.getElem?_append_left (by omega)]
  by_cases hlast : l.getLast? = some x
  · rw [if_pos hlast]
    rw [show ({ canonNode l x with next := some k } : DNode) =
      ⟨prevInList l x, some k, x⟩ from rfl]
    rw [show canonNode (l ++ [k]) x =
      ⟨prevInList (l ++ [k]) x, nextInList (l ++ [k]) x, x⟩ from rfl]
    rw [hprev, hnext, if_pos hlast]
  · rw [if_neg hlast]
    rw [show canonNode (l ++ [k]) x =
      ⟨prevInList (l ++ [k]) x, nextInList (l ++ [k]) x, x⟩ from rfl]
    rw [show canonNode l x = ⟨prevInList l x, nextInList l x, x⟩ from rfl]
    rw [hprev, hnext, if_neg hlast]

/-- The canonical node of a key freshly appended at the tail: its `prev` is
the old last key and its `next` is `none`. -/
theorem canonNode_append_self (l : List String) (k : String) (hk : k ∉ l) :
    canonNode (l ++ [k]) k = ⟨l.getLast?, none, k⟩ := by
  have hidx : (l ++ [k]).indexOf k = l.length := by
    rw [List.indexOf_append_of_not_mem hk]
    simp
  rw [show canonNode (l ++ [k]) k =
    ⟨prevInList (l ++ [k]) k, nextInList (l ++ [k]) k, k⟩ from rfl]
  have hprev : prevInList (l ++ [k]) k = l.getLast? := by
    rw [prevInList, hidx]
    cases l with
    | nil => simp
    | cons a t =>
      rw [if_neg (by simp)]
      rw [List.getElem?_append_left (by simp)]
      rw [List.getLast?_eq_getElem?]
  have hnext : nextInList (l ++ [k]) k = none := by
    rw [nextInList, hidx]
    exact List.getElem?_eq_none_iff.mpr (by simp)
  rw [hprev, hnext]

/-- `_list_insert_tail` of a fresh key preserves consistency: the new state
encodes `l ++ [k]`, and the dict entries are untouched. -/
theorem PartDict.listInsertTail_listRep {V : Type} (s : PartDict V) (l : List String)
    (k : String) (h : s.listRep l) (hk : k ∉ l) :
    ∃ s2, s.listInsertTail k = .ok s2 ∧ s2.listRep (l ++ [k]) ∧ s2.entries = s.entries := by
  obtain ⟨hnd, hhead, htail, hperm, hnodes⟩ := h
  cases l with
  | nil =>
    have hmapnil : s.map = [] := by
      have h2 : List.map Prod.fst s.map = [] := hperm.eq_nil
      exact List.map_eq_nil_iff.mp h2
    have hcond : s.head = none ∧ s.tail = none := by
      constructor
      · simpa using hhead
      · simpa using htail
    refine ⟨{ s with map := alistSet s.map k ⟨none, none, k⟩,
                     head := some k, tail := some k }, ?_, ?_, rfl⟩
    · rw [PartDict.listInsertTail, if_pos hcond]
    refine ⟨by simp, by simp, by simp, ?_, ?_⟩
    · rw [hmapnil]
      simp [alistSet]
    · intro x hx
      simp only [List.nil_append, List.mem_singleton] at hx
      subst hx
      rw [hmapnil]
      simp [alistSet, alistLookup, canonNode, prevInList, nextInList]
  | cons a t =>
    have hheadsome : s.head = some a := by simpa using hhead
    have hcond : ¬ (s.head = none ∧ s.tail = none) := by
      rw [hheadsome]; simp
    obtain ⟨last, hl⟩ : ∃ last, (a :: t).getLast? = some last := by
      cases h : (a :: t).getLast? with
      | none => simp at h
      | some z => exact ⟨z, rfl⟩
    have hlastmem : last ∈ a :: t := List.mem_of_mem_getLast? hl
    have htailsome : s.tail = some last := by rw [htail, hl]
    have hlook : alistLookup s.map last = some (canonNode (a :: t) last) :=
      hnodes last hlastmem
    have hkeys : (List.map Prod.fst s.map).Perm (a :: t) := hperm
    have hkkeys : k ∉ List.map Prod.fst s.map := fun hmem => hk (hkeys.mem_iff.mp hmem)
    have hlastkeys : last ∈ List.map Prod.fst s.map := hkeys.mem_iff.mpr hlastmem
    have hm1 : mapSetNext s.map s.tail (some k) =
        .ok (alistSet s.map last { canonNode (a :: t) last with next := some k }) := by
      rw [htailsome, mapSetNext, mapUpdate, hlook]
    refine ⟨{ s with
                map := alistSet
                  (alistSet s.map last { canonNode (a :: t) last with next := some k })
                  k ⟨s.tail, none, k⟩,
                tail := some k }, ?_, ?_, rfl⟩
    · rw [PartDict.listInsertTail, if_neg hcond, hm1]
      rfl
    · have hkeys1 : List.map Prod.fst
          (alistSet s.map last { canonNode (a :: t) last with next := some k }) =
          List.map Prod.fst s.map := alistSet_keys_of_mem _ hlastkeys
      have hkm1 : k ∉ List.map Prod.fst
          (alistSet s.map last { canonNode (a :: t) last with next := some k }) := by
        rw [hkeys1]; exact hkkeys
      refine ⟨?_, ?_, ?_, ?_, ?_⟩
      · rw [List.nodup_append]
        exact ⟨hnd, List.nodup_singleton k,
          fun x hx hx2 => hk ((List.mem_singleton.mp hx2) ▸ hx)⟩
      · rw [hheadsome]; rfl
      · rw [List.getLast?_concat]
      · show (List.map Prod.fst (alistSet
            (alistSet s.map last { canonNode (a :: t) last with next := some k })
            k (⟨s.tail, none, k⟩ : DNode))).Perm ((a :: t) ++ [k])
        rw [alistSet_keys_of_not_mem _ hkm1, hkeys1]
        exact (List.perm_append_right_iff [k]).mpr hkeys
      · intro x hx
        rw [List.mem_append, List.mem_singleton] at hx
        rcases hx with hx | hx
        · have hxk : x ≠ k := fun heq => hk (heq ▸ hx)
          rw [alistLookup_set_ne _ _ hxk]
          rw [canonNode_append _ _ _ hnd hx]
          by_cases hxlast : x = last
          · subst hxlast
            rw [alistLookup_set_self, if_pos hl]
          · rw [alistLookup_set_ne _ _ (fun heq => hxlast heq)]
            rw [hnodes x hx]
            rw [if_neg (fun heq => hxlast (by
              rw [hl] at heq
              exact (Option.some.injEq _ _).mp heq.symm))]
        · subst hx
          rw [alistLookup_set_self]
          rw [canonNode_append_self _ _ hk, htailsome, hl]

/-- `__setitem__` on a key already present in the dict never touches the
linked list: only the dict entry is replaced. -/
theorem PartDict.setitem_of_mem {V : Type} (s : PartDict V) (k : String) (v : V)
    (h : alistMem s.entries k = true) :
    s.setitem k v = .ok { s with entries := alistSet s.entries k v } := by
  rw [PartDict.setitem, if_pos h]
  rfl

/-- C8: on a consistent container, re-setting an existing key replaces the
mapped value but leaves the node map, head, tail — and therefore the forward
and reverse iteration order of all keys — exactly as they were; only
insertion of a previously absent key changes the order, appending the key at
the tail. -/
theorem C8_reset_existing_key_keeps_order {V : Type} (s : PartDict V)
    (l : List String) (k : String) (v : V) (hrep : s.represents l) :
    (k ∈ l →
      s.setitem k v = .ok { s with entries := alistSet s.entries k v }
      ∧ ({ s with entries := alistSet s.entries k v } : PartDict V).represents l
      ∧ ({ s with entries := alistSet s.entries k v } : PartDict V).iterate = .ok l
      ∧ ({ s with entries := alistSet s.entries k v } : PartDict V).iterateRev = .ok l.reverse
      ∧ alistLookup (alistSet s.entries k v) k = some v
      ∧ ∀ k2, k2 ≠ k → alistLookup (alistSet s.entries k v) k2 = alistLookup s.entries k2)
    ∧ (k ∉ l →
      ∃ s2, s.setitem k v = .ok s2 ∧ s2.represents (l ++ [k])
        ∧ s2.iterate = .ok (l ++ [k])) := by
  obtain ⟨hlr, hent⟩ := hrep
  constructor
  · intro hk
    have hmem : alistMem s.entries k = true := by
      rw [alistMem_iff]
      exact hent.mem_iff.mpr hk
    have hkeys : List.map Prod.fst (alistSet s.entries k v) = List.map Prod.fst s.entries :=
      alistSet_keys_of_mem v (hent.mem_iff.mpr hk)
    refine ⟨PartDict.setitem_of_mem s k v hmem, ⟨hlr, ?_⟩,
      PartDict.listRep_iterate _ l hlr, PartDict.listRep_iterateRev _ l hlr,
      alistLookup_set_self _ _ _, fun k2 hne => alistLookup_set_ne _ _ hne⟩
    show (List.map Prod.fst (alistSet s.entries k v)).Perm l
    rw [hkeys]
    exact hent
  · intro hk
    have hmem : ¬ alistMem s.entries k = true := by
      rw [alistMem_iff]
      exact fun hm => hk (hent.mem_iff.mp hm)
    obtain ⟨s2, hins, hlr2, hentr⟩ := PartDict.listInsertTail_listRep s l k hlr hk
    refine ⟨{ s2 with entries := alistSet s2.entries k v }, ?_, ⟨hlr2, ?_⟩,
      PartDict.listRep_iterate _ _ hlr2⟩
    · rw [PartDict.setitem, if_neg hmem, hins]
      rfl
    · show (List.map Prod.fst (alistSet s2.entries k v)).Perm (l ++ [k])
      have hkent : k ∉ List.map Prod.fst s2.entries := by
        rw [hentr]
        exact fun hm => hk (hent.mem_iff.mp hm)
      rw [alistSet_keys_of_not_mem v hkent, hentr]
      exact (List.perm_append_right_iff [k]).mpr hent

/-- A concrete consistent two-key container used to witness C8. -/
def goodAB : PartDict Bool :=
  ⟨[("a", false), ("b", false)],
   [("a", ⟨none, some "b", "a"⟩), ("b", ⟨some "a", none, "b"⟩)],
   some "a", some "b", none, none⟩

/-- Witness for C8 at a concrete container: re-setting `"a"` in the two-key
container `goodAB` keeps the order `["a", "b"]` while replacing the value. -/
theorem C8_reset_existing_key_keeps_order_witness :
    goodAB.setitem "a" true =
      .ok { goodAB with entries := alistSet goodAB.entries "a" true }
    ∧ ({ goodAB with entries := alistSet goodAB.entries "a" true } : PartDict Bool).represents
        ["a", "b"]
    ∧ ({ goodAB with entries := alistSet goodAB.entries "a" true } : PartDict Bool).iterate =
        .ok ["a", "b"]
    ∧ ({ goodAB with entries := alistSet goodAB.entries "a" true } : PartDict Bool).iterateRev =
        .ok (["a", "b"].reverse)
    ∧ alistLookup (alistSet goodAB.entries "a" true) "a" = some true
    ∧ ∀ k2, k2 ≠ "a" →
        alistLookup (alistSet goodAB.entries "a" true) k2 = alistLookup goodAB.entries k2 :=
  (C8_reset_existing_key_keeps_order goodAB ["a", "b"] "a" true (by decide)).1 (by decide)

/-! ### attributes.py: stroke and fill opacity -/

/-- A Python scalar argument as the opacity parameters receive it.  Finite
Python floats are modelled as rationals: every finite float is a rational
number, and Python comparison and `min`/`max` on finite floats agree with
the rational order.  Note `isinstance(1, float)` and `isinstance(True, float)`
are false in Python, so `int` and `boolean` are distinct constructors. -/
inductive PyScalar where
  | none
  | float (x : ℚ)
  | int (n : ℤ)
  | str (s : String)
  | boolean (b : Bool)
deriving DecidableEq, Repr

def PyScalar.isFloat : PyScalar → Bool
  | .float _ => true
  | _ => false

/-- `clip` from maths.py: `max(min(x, xmax), xmin)`. -/
def clip (x xmin xmax : ℚ) : ℚ := max (min x xmax) xmin

/-- The `stroke_opacity` validation and clamping in `Stroke.__init__`
(attributes.py lines 240-245): `None` is stored as `None`, a float is
clamped into [0, 1] with `clip`, anything else raises `TypeError`.  The
other `Stroke` parameters are validated independently of this one and are
not modelled. -/
def strokeInitOpacity : PyScalar → Except PyErr (Option ℚ)
  | .none => .ok none
  | .float x => .ok (some (clip x 0 1))
  | _ => .error .typeError

/-- The `fill_opacity` validation and clamping in `Fill.__init__`
(attributes.py lines 315-320); same shape as the stroke case. -/
def fillInitOpacity : PyScalar → Except PyErr (Option ℚ)
  | .none => .ok none
  | .float x => .ok (some (clip x 0 1))
  | _ => .error .typeError

/-- `Stroke.set_element_attributes` opacity contribution: the attribute is
written exactly when the stored value is set, with the stored value
(Python renders it with `str`). -/
def strokeEmitOpacity : Option ℚ → List (String × ℚ)
  | none => []
  | some v => [("stroke-opacity", v)]

/-- `Fill.set_element_attributes` opacity contribution. -/
def fillEmitOpacity : Option ℚ → List (String × ℚ)
  | none => []
  | some v => [("fill-opacity", v)]

theorem clip_eq_min_max (x : ℚ) : clip x 0 1 = min (max x 0) 1 := by
  rw [clip]
  rcases le_total x 0 with h | h
  · rcases le_total x 1 with h1 | h1 <;>
      simp [min_def, max_def, h, h1] <;> linarith
  · rcases le_total x 1 with h1 | h1 <;>
      simp [min_def, max_def, h, h1] <;> linarith

/-- C9: a float opacity `o` handed to `Stroke` (`stroke_opacity`) or `Fill`
(`fill_opacity`) is accepted and stored clamped to `min(max(o, 0), 1)`, and
the stored value is what the element attribute later emits; in particular
1.1 is stored as 1.0 and -0.5 as 0.0. -/
theorem C9_opacity_clamped :
    (∀ o : ℚ,
      strokeInitOpacity (.float o) = .ok (some (min (max o 0) 1))
      ∧ fillInitOpacity (.float o) = .ok (some (min (max o 0) 1))
      ∧ strokeEmitOpacity (some (clip o 0 1)) = [("stroke-opacity", clip o 0 1)]
      ∧ fillEmitOpacity (some (clip o 0 1)) = [("fill-opacity", clip o 0 1)])
    ∧ strokeInitOpacity (.float (11 / 10)) = .ok (some 1)
    ∧ strokeInitOpacity (.float (-1 / 2)) = .ok (some 0)
    ∧ fillInitOpacity (.float (11 / 10)) = .ok (some 1)
    ∧ fillInitOpacity (.float (-1 / 2)) = .ok (some 0) := by
  have h1 : clip (11 / 10) 0 1 = 1 := by
    rw [clip]
    norm_num [min_def, max_def]
  have h2 : clip (-1 / 2) 0 1 = 0 := by
    rw [clip]
    norm_num [min_def, max_def]
  refine ⟨fun o => ⟨?_, ?_, rfl, rfl⟩, ?_, ?_, ?_, ?_⟩
  · rw [strokeInitOpacity, clip_eq_min_max]
  · rw [fillInitOpacity, clip_eq_min_max]
  · rw [strokeInitOpacity, h1]
  · rw [strokeInitOpacity, h2]
  · rw [fillInitOpacity, h1]
  · rw [fillInitOpacity, h2]

/-- C10: any opacity argument that is neither `None` nor a float — an
integer, a boolean or a string — makes both constructors raise `TypeError`;
clamping applies only to floats. -/
theorem C10_nonfloat_opacity_rejected (v : PyScalar) (h1 : v ≠ .none)
    (h2 : v.isFloat = false) :
    strokeInitOpacity v = .error .typeError ∧ fillInitOpacity v = .error .typeError := by
  cases v <;> simp_all [strokeInitOpacity, fillInitOpacity, PyScalar.isFloat]

/-- Witness for C10 at the integer 1: rejected by both constructors. -/
theorem C10_nonfloat_opacity_rejected_witness :
    (PyScalar.int 1 ≠ .none) ∧ (PyScalar.int 1).isFloat = false
    ∧ strokeInitOpacity (.int 1) = .error .typeError
    ∧ fillInitOpacity (.int 1) = .error .typeError :=
  ⟨by decide, by decide,
    (C10_nonfloat_opacity_rejected (.int 1) (by decide) (by decide)).1,
    (C10_nonfloat_opacity_rejected (.int 1) (by decide) (by decide)).2⟩

/-! ### units.py `_scale` and paths.py command serialisation

Magnitudes are rationals (finite Python floats).  Length quantities are
normalised to millimetres in this embedding; pint's length-unit conversion
factors are folded into the `device_per_length` argument.  Python's float
formatting `str(x)` is an external stdlib function and is modelled by an
explicit rendering function `fmt : ℚ → String` passed to the serialisers;
`pyFloatRepr` below instantiates it for the whole-valued magnitudes used in
concrete examples. -/

/-- Unit tags for path coordinates. -/
inductive PathUnit where
  | mm
  | px
  | deg
deriving DecidableEq, Repr

/-- A quantity held by a path command: rational magnitude plus unit tag. -/
structure PQty where
  mag : ℚ
  unit : PathUnit
deriving DecidableEq, Repr

/-- `_scale` (units.py): a length is multiplied by `device_per_length`, a
pixel value by `device_per_pixel`, anything else raises `ValueError`; the
result is a device-unit magnitude. -/
def pscale (v : PQty) (dpl dpp : ℚ) : Except PyErr ℚ :=
  match v.unit with
  | .mm => .ok (v.mag * dpl)
  | .px => .ok (v.mag * dpp)
  | .deg => .error .valueError

/-- `str` of a device-dimensioned pint quantity: magnitude, one space, unit
name (`PathLine.to_svg` formats whole quantities, not magnitudes). -/
def pyStrDevice (fmt : ℚ → String) (q : ℚ) : String :=
  fmt q ++ " device"

/-- The path command classes of paths.py (the fifteen members of
`_COMMAND_CLASSES`). -/
inductive PathCmd where
  | moveTo (x y : PQty)
  | moveToDelta (dx dy : PQty)
  | lineTo (x y : PQty)
  | lineToDelta (dx dy : PQty)
  | pathLine (x0 y0 x1 y1 : PQty)
  | hlineTo (x : PQty)
  | hlineToDelta (dx : PQty)
  | hline (x0 y x1 : PQty)
  | vlineTo (y : PQty)
  | vlineToDelta (dy : PQty)
  | vline (x y0 y1 : PQty)
  | cubicBezierTo (xc1 yc1 xc2 yc2 x y : PQty)
  | cubicBezierToDelta (dxc1 dyc1 dxc2 dyc2 dx dy : PQty)
  | quadraticBezierTo (xc yc x y : PQty)
  | quadraticBezierToDelta (dxc dyc dx dy : PQty)
deriving DecidableEq, Repr

def PathCmd.isHlineToDelta : PathCmd → Bool
  | .hlineToDelta _ => true
  | _ => false

/-- `to_svg` of each command class, with the exact format strings of the
source.  `HlineToDelta.to_svg` (paths.py line 309) is the one class whose
format string `'h {} '` carries a trailing space; `PathLine.to_svg` (line
231) formats the scaled quantities themselves, so its coordinates carry a
` device` unit suffix. -/
def PathCmd.to_svg (fmt : ℚ → String) (dpl dpp : ℚ) : PathCmd → Except PyErr String
  | .moveTo x y => do
    let xs ← pscale x dpl dpp
    let ys ← pscale y dpl dpp
    .ok ("M " ++ fmt xs ++ " " ++ fmt ys)
  | .moveToDelta dx dy => do
    let xs ← pscale dx dpl dpp
    let ys ← pscale dy dpl dpp
    .ok ("m " ++ fmt xs ++ " " ++ fmt ys)
  | .lineTo x y => do
    let xs ← pscale x dpl dpp
    let ys ← pscale y dpl dpp
    .ok ("L " ++ fmt xs ++ " " ++ fmt ys)
  | .lineToDelta dx dy => do
    let xs ← pscale dx dpl dpp
    let ys ← pscale dy dpl dpp
    .ok ("l " ++ fmt xs ++ " " ++ fmt ys)
  | .pathLine x0 y0 x1 y1 => do
    let a ← pscale x0 dpl dpp
    let b ← pscale y0 dpl dpp
    let c ← pscale x1 dpl dpp
    let d ← pscale y1 dpl dpp
    .ok ("M " ++ pyStrDevice fmt a ++ " " ++ pyStrDevice fmt b ++ " L " ++
      pyStrDevice fmt c ++ " " ++ pyStrDevice fmt d)
  | .hlineTo x => do
    let xs ← pscale x dpl dpp
    .ok ("H " ++ fmt xs)
  | .hlineToDelta dx => do
    let xs ← pscale dx dpl dpp
    .ok ("h " ++ fmt xs ++ " ")
  | .hline x0 y x1 => do
    let a ← pscale x0 dpl dpp
    let b ← pscale y dpl dpp
    let c ← pscale x1 dpl dpp
    .ok ("M " ++ fmt a ++ " " ++ fmt b ++ " H " ++ fmt c)
  | .vlineTo y => do
    let ys ← pscale y dpl dpp
    .ok ("V " ++ fmt ys)
  | .vlineToDelta dy => do
    let ys ← pscale dy dpl dpp
    .ok ("v " ++ fmt ys)
  | .vline x y0 y1 => do
    let a ← pscale x dpl dpp
    let b ← pscale y0 dpl dpp
    let c ← pscale y1 dpl dpp
    .ok ("M " ++ fmt a ++ " " ++ fmt b ++ " V " ++ fmt c)
  | .cubicBezierTo xc1 yc1 xc2 yc2 x y => do
    let a ← pscale xc1 dpl dpp
    let b ← pscale yc1 dpl dpp
    let c ← pscale xc2 dpl dpp
    let d ← pscale yc2 dpl dpp
    let e ← pscale x dpl dpp
    let f ← pscale y dpl dpp
    .ok ("C " ++ fmt a ++ " " ++ fmt b ++ ", " ++ fmt c ++ " " ++ fmt d ++ ", " ++
      fmt e ++ " " ++ fmt f)
  | .cubicBezierToDelta dxc1 dyc1 dxc2 dyc2 dx dy => do
    let a ← pscale dxc1 dpl dpp
    let b ← pscale dyc1 dpl dpp
    let c ← pscale dxc2 dpl dpp
    let d ← pscale dyc2 dpl dpp
    let e ← pscale dx dpl dpp
    let f ← pscale dy dpl dpp
    .ok ("c " ++ fmt a ++ " " ++ fmt b ++ ", " ++ fmt c ++ " " ++ fmt d ++ ", " ++
      fmt e ++ " " ++ fmt f)
  | .quadraticBezierTo xc yc x y => do
    let a ← pscale xc dpl dpp
    let b ← pscale yc dpl dpp
    let c ← pscale x dpl dpp
    let d ← pscale y dpl dpp
    .ok ("Q " ++ fmt a ++ " " ++ fmt b ++ ", " ++ fmt c ++ " " ++ fmt d)
  | .quadraticBezierToDelta dxc dyc dx dy => do
    let a ← pscale dxc dpl dpp
    let b ← pscale dyc dpl dpp
    let c ← pscale dx dpl dpp
    let d ← pscale dy dpl dpp
    .ok ("q " ++ fmt a ++ " " ++ fmt b ++ ", " ++ fmt c ++ " " ++ fmt d)

/-- `RawPath.to_svg` (paths.py lines 821-837): the tokens of the commands in
sequence order joined by `' '.join`, with `' Z'` appended when the path is
closed. -/
def RawPath.to_svg (fmt : ℚ → String) (cmds : List PathCmd) (closed : Bool)
    (dpl dpp : ℚ) : Except PyErr String := do
  let ts ← cmds.mapM (PathCmd.to_svg fmt dpl dpp)
  let tmp := String.intercalate " " ts
  .ok (if closed then tmp ++ " Z" else tmp)

/-- Python `str` of a whole-valued float, which is how the magnitudes in the
concrete examples render (`str(50.0) == '50.0'`). -/
def pyFloatRepr (q : ℚ) : String :=
  if q.den = 1 then toString q.num ++ ".0" else toString q

@[simp] theorem except_ok_bind {ε α β : Type} (a : α) (f : α → Except ε β) :
    (Except.ok a >>= f) = f a := rfl

@[simp] theorem except_error_bind {ε α β : Type} (e : ε) (f : α → Except ε β) :
    ((Except.error e : Except ε α) >>= f) = Except.error e := rfl

/-- Adjacent pair of spaces somewhere in a character list. -/
def hasDoubleSpace : List Char → Bool
  | c1 :: c2 :: t => (c1 = ' ' && c2 = ' ') || hasDoubleSpace (c2 :: t)
  | _ => false

theorem string_append_data (s t : String) : (s ++ t).data = s.data ++ t.data := rfl

theorem head_append_str (x y : String) (hx : x.data ≠ []) :
    (x ++ y).data.head? = x.data.head? := by
  rw [string_append_data]
  exact List.head?_append_of_ne_nil _ hx

theorem last_append_str (x y : String) (hy : y.data ≠ []) :
    (x ++ y).data.getLast? = y.data.getLast? := by
  rw [string_append_data]
  exact List.getLast?_append_of_ne_nil _ hy

theorem append_str_ne_nil (x y : String) (hx : x.data ≠ []) : (x ++ y).data ≠ [] := by
  rw [string_append_data]
  intro h
  exact hx (List.append_eq_nil.mp h).1

/-- A nonempty string that does not start with a space keeps both properties
under right extension. -/
theorem head_left (x y : String) (hx : x.data.head? ≠ some ' ' ∧ x.data ≠ []) :
    (x ++ y).data.head? ≠ some ' ' ∧ (x ++ y).data ≠ [] := by
  refine ⟨?_, append_str_ne_nil _ _ hx.2⟩
  rw [head_append_str _ _ hx.2]
  exact hx.1

theorem last_not_space_of_not_mem (s : String) (h : ' ' ∉ s.data) :
    s.data.getLast? ≠ some ' ' :=
  fun hl => h (List.mem_of_mem_getLast? hl)

theorem bind_ok_ex {ε α β : Type} {e : Except ε α} {f : α → Except ε β} {b : β}
    (h : (e >>= f) = .ok b) : ∃ a, e = .ok a ∧ f a = .ok b := by
  cases e with
  | error err =>
    rw [except_error_bind] at h
    exact Except.noConfusion h
  | ok a =>
    rw [except_ok_bind] at h
    exact ⟨a, rfl, h⟩

/-- C7 (counterexample to the claim as stated): the closed single-command
path `[HlineToDelta(50 px)]` serialises to `"h 50.0  Z"`, which contains a
double space — `HlineToDelta.to_svg`'s token carries a trailing space, so
tokens are not all free of trailing whitespace. -/
theorem C7_to_svg_counterexample :
    RawPath.to_svg pyFloatRepr [.hlineToDelta ⟨50, .px⟩] true 72 1 = .ok "h 50.0  Z"
    ∧ hasDoubleSpace "h 50.0  Z".data = true := by
  refine ⟨?_, by decide⟩
  have hp : pscale ⟨50, .px⟩ 72 1 = .ok 50 := by
    rw [pscale]
    norm_num
  have hf : pyFloatRepr 50 = "50.0" := by
    rw [pyFloatRepr]
    norm_num
    decide
  simp [RawPath.to_svg, PathCmd.to_svg, hp, hf, List.mapM.loop,
    String.intercalate, String.intercalate.go]

/-- C7 (amended): `RawPath.to_svg` is the single-space join of the commands'
tokens in sequence order with `' Z'` appended exactly when the path is
closed; provided the numeral rendering is nonempty and space-free, every
command class yields a token with no leading and no trailing whitespace,
with the single exception of `HlineToDelta`, whose token is `'h '`, the
numeral, and one trailing space — so a double space follows each
`HlineToDelta` token in the joined output. -/
theorem C7_to_svg_amended (fmt : ℚ → String)
    (hfmt : ∀ q : ℚ, (fmt q).data ≠ [] ∧ ' ' ∉ (fmt q).data) :
    ∀ (cmds : List PathCmd) (closed : Bool) (dpl dpp : ℚ),
      RawPath.to_svg fmt cmds closed dpl dpp =
        (cmds.mapM (PathCmd.to_svg fmt dpl dpp)).map
          (fun ts => String.intercalate " " ts ++ (if closed then " Z" else ""))
      ∧ (∀ c : PathCmd, ∀ s : String, PathCmd.to_svg fmt dpl dpp c = .ok s →
          (c.isHlineToDelta = false →
            s.data.head? ≠ some ' ' ∧ s.data.getLast? ≠ some ' ')
          ∧ (c.isHlineToDelta = true → ∃ q, s = "h " ++ fmt q ++ " ")) := by
  intro cmds closed dpl dpp
  constructor
  · rw [RawPath.to_svg]
    cases h : cmds.mapM (PathCmd.to_svg fmt dpl dpp) with
    | error e =>
      rw [except_error_bind]
      rfl
    | ok ts =>
      rw [except_ok_bind]
      cases closed <;> simp [Except.map]
  · intro c
    cases c with
    | moveTo x y =>
      intro s hs
      simp only [PathCmd.to_svg] at hs
      obtain ⟨a, hx, hs⟩ := bind_ok_ex hs
      obtain ⟨b, hy, hs⟩ := bind_ok_ex hs
      injection hs with hs
      subst hs
      refine ⟨fun _ => ⟨?_, ?_⟩, fun hcon => by simp [PathCmd.isHlineToDelta] at hcon⟩
      · exact (head_left _ _ (head_left _ _ (head_left _ _ (by decide)))).1
      · rw [last_append_str _ _ (hfmt b).1]
        exact last_not_space_of_not_mem _ (hfmt b).2
    | moveToDelta dx dy =>
      intro s hs
      simp only [PathCmd.to_svg] at hs
      obtain ⟨a, hx, hs⟩ := bind_ok_ex hs
      obtain ⟨b, hy, hs⟩ := bind_ok_ex hs
      injection hs with hs
      subst hs
      refine ⟨fun _ => ⟨?_, ?_⟩, fun hcon => by simp [PathCmd.isHlineToDelta] at hcon⟩
      · exact (head_left _ _ (head_left _ _ (head_left _ _ (by decide)))).1
      · rw [last_append_str _ _ (hfmt b).1]
        exact last_not_space_of_not_mem _ (hfmt b).2
    | lineTo x y =>
      intro s hs
      simp only [PathCmd.to_svg] at hs
      obtain ⟨a, hx, hs⟩ := bind_ok_ex hs
      obtain ⟨b, hy, hs⟩ := bind_ok_ex hs
      injection hs with hs
      subst hs
      refine ⟨fun _ => ⟨?_, ?_⟩, fun hcon => by simp [PathCmd.isHlineToDelta] at hcon⟩
      · exact (head_left _ _ (head_left _ _ (head_left _ _ (by decide)))).1
      · rw [last_append_str _ _ (hfmt b).1]
        exact last_not_space_of_not_mem _ (hfmt b).2
    | lineToDelta dx dy =>
      intro s hs
      simp only [PathCmd.to_svg] at hs
      obtain ⟨a, hx, hs⟩ := bind_ok_ex hs
      obtain ⟨b, hy, hs⟩ := bind_ok_ex hs
      injection hs with hs
      subst hs
      refine ⟨fun _ => ⟨?_, ?_⟩, fun hcon => by simp [PathCmd.isHlineToDelta] at hcon⟩
      · exact (head_left _ _ (head_left _ _ (head_left _ _ (by decide)))).1
      · rw [last_append_str _ _ (hfmt b).1]
        exact last_not_space_of_not_mem _ (hfmt b).2
    | pathLine x0 y0 x1 y1 =>
      intro s hs
      simp only [PathCmd.to_svg] at hs
      obtain ⟨a, hx, hs⟩ := bind_ok_ex hs
      obtain ⟨b, hy, hs⟩ := bind_ok_ex hs
      obtain ⟨c2, hz, hs⟩ := bind_ok_ex hs
      obtain ⟨d, hw, hs⟩ := bind_ok_ex hs
      injection hs with hs
      subst hs
      have hpd : ∀ q : ℚ, (pyStrDevice fmt q).data.head? ≠ some ' ' ∧
          (pyStrDevice fmt q).data ≠ [] := by
        intro q
        constructor
        · rw [show pyStrDevice fmt q = fmt q ++ " device" from rfl,
            head_append_str _ _ (hfmt q).1]
          intro hcon
          exact (hfmt q).2 (List.mem_of_mem_head? hcon)
        · exact append_str_ne_nil (fmt q) " device" (hfmt q).1
      refine ⟨fun _ => ⟨?_, ?_⟩, fun hcon => by simp [PathCmd.isHlineToDelta] at hcon⟩
      · exact (head_left _ _ (head_left _ _ (head_left _ _ (head_left _ _ (head_left _ _
          (head_left _ _ (head_left _ _ (by decide)))))))).1
      · rw [last_append_str _ _ (hpd d).2,
          show pyStrDevice fmt d = fmt d ++ " device" from rfl,
          last_append_str _ _ (by decide)]
        decide
    | hlineTo x =>
      intro s hs
      simp only [PathCmd.to_svg] at hs
      obtain ⟨a, hx, hs⟩ := bind_ok_ex hs
      injection hs with hs
      subst hs
      refine ⟨fun _ => ⟨?_, ?_⟩, fun hcon => by simp [PathCmd.isHlineToDelta] at hcon⟩
      · exact (head_left _ _ (by decide)).1
      · rw [last_append_str _ _ (hfmt a).1]
        exact last_not_space_of_not_mem _ (hfmt a).2
    | hlineToDelta dx =>
      intro s hs
      simp only [PathCmd.to_svg] at hs
      obtain ⟨a, hx, hs⟩ := bind_ok_ex hs
      injection hs with hs
      subst hs
      refine ⟨fun hcon => by simp [PathCmd.isHlineToDelta] at hcon, fun _ => ⟨a, rfl⟩⟩
    | hline x0 y x1 =>
      intro s hs
      simp only [PathCmd.to_svg] at hs
      obtain ⟨a, hx, hs⟩ := bind_ok_ex hs
      obtain ⟨b, hy, hs⟩ := bind_ok_ex hs
      obtain ⟨c2, hz, hs⟩ := bind_ok_ex hs
      injection hs with hs
      subst hs
      refine ⟨fun _ => ⟨?_, ?_⟩, fun hcon => by simp [PathCmd.isHlineToDelta] at hcon⟩
      · exact (head_left _ _ (head_left _ _ (head_left _ _ (head_left _ _
          (head_left _ _ (by decide)))))).1
      · rw [last_append_str _ _ (hfmt c2).1]
        exact last_not_space_of_not_mem _ (hfmt c2).2
    | vlineTo y =>
      intro s hs
      simp only [PathCmd.to_svg] at hs
      obtain ⟨a, hx, hs⟩ := bind_ok_ex hs
      injection hs with hs
      subst hs
      refine ⟨fun _ => ⟨?_, ?_⟩, fun hcon => by simp [PathCmd.isHlineToDelta] at hcon⟩
      · exact (head_left _ _ (by decide)).1
      · rw [last_append_str _ _ (hfmt a).1]
        exact last_not_space_of_not_mem _ (hfmt a).2
    | vlineToDelta dy =>
      intro s hs
      simp only [PathCmd.to_svg] at hs
      obtain ⟨a, hx, hs⟩ := bind_ok_ex hs
      injection hs with hs
      subst hs
      refine ⟨fun _ => ⟨?_, ?_⟩, fun hcon => by simp [PathCmd.isHlineToDelta] at hcon⟩
      · exact (head_left _ _ (by decide)).1
      · rw [last_append_str _ _ (hfmt a).1]
        exact last_not_space_of_not_mem _ (hfmt a).2
    | vline x y0 y1 =>
      intro s hs
      simp only [PathCmd.to_svg] at hs
      obtain ⟨a, hx, hs⟩ := bind_ok_ex hs
      obtain ⟨b, hy, hs⟩ := bind_ok_ex hs
      obtain ⟨c2, hz, hs⟩ := bind_ok_ex hs
      injection hs with hs
      subst hs
      refine ⟨fun _ => ⟨?_, ?_⟩, fun hcon => by simp [PathCmd.isHlineToDelta] at hcon⟩
      · exact (head_left _ _ (head_left _ _ (head_left _ _ (head_left _ _
          (head_left _ _ (by decide)))))).1
      · rw [last_append_str _ _ (hfmt c2).1]
        exact last_not_space_of_not_mem _ (hfmt c2).2
    | cubicBezierTo xc1 yc1 xc2 yc2 x y =>
      intro s hs
      simp only [PathCmd.to_svg] at hs
      obtain ⟨a, h1, hs⟩ := bind_ok_ex hs
      obtain ⟨b, h2, hs⟩ := bind_ok_ex hs
      obtain ⟨c2, h3, hs⟩ := bind_ok_ex hs
      obtain ⟨d, h4, hs⟩ := bind_ok_ex hs
      obtain ⟨e2, h5, hs⟩ := bind_ok_ex hs
      obtain ⟨f2, h6, hs⟩ := bind_ok_ex hs
      injection hs with hs
      subst hs
      refine ⟨fun _ => ⟨?_, ?_⟩, fun hcon => by simp [PathCmd.isHlineToDelta] at hcon⟩
      · exact (head_left _ _ (head_left _ _ (head_left _ _ (head_left _ _ (head_left _ _
          (head_left _ _ (head_left _ _ (head_left _ _ (head_left _ _ (head_left _ _
          (head_left _ _ (by decide)))))))))))).1
      · rw [last_append_str _ _ (hfmt f2).1]
        exact last_not_space_of_not_mem _ (hfmt f2).2
    | cubicBezierToDelta dxc1 dyc1 dxc2 dyc2 dx dy =>
      intro s hs
      simp only [PathCmd.to_svg] at hs
      obtain ⟨a, h1, hs⟩ := bind_ok_ex hs
      obtain ⟨b, h2, hs⟩ := bind_ok_ex hs
      obtain ⟨c2, h3, hs⟩ := bind_ok_ex hs
      obtain ⟨d, h4, hs⟩ := bind_ok_ex hs
      obtain ⟨e2, h5, hs⟩ := bind_ok_ex hs
      obtain ⟨f2, h6, hs⟩ := bind_ok_ex hs
      injection hs with hs
      subst hs
      refine ⟨fun _ => ⟨?_, ?_⟩, fun hcon => by simp [PathCmd.isHlineToDelta] at hcon⟩
      · exact (head_left _ _ (head_left _ _ (head_left _ _ (head_left _ _ (head_left _ _
          (head_left _ _ (head_left _ _ (head_left _ _ (head_left _ _ (head_left _ _
          (head_left _ _ (by decide)))))))))))).1
      · rw [last_append_str _ _ (hfmt f2).1]
        exact last_not_space_of_not_mem _ (hfmt f2).2
    | quadraticBezierTo xc yc x y =>
      intro s hs
      simp only [PathCmd.to_svg] at hs
      obtain ⟨a, h1, hs⟩ := bind_ok_ex hs
      obtain ⟨b, h2, hs⟩ := bind_ok_ex hs
      obtain ⟨c2, h3, hs⟩ := bind_ok_ex hs
      obtain ⟨d, h4, hs⟩ := bind_ok_ex hs
      injection hs with hs
      subst hs
      refine ⟨fun _ => ⟨?_, ?_⟩, fun hcon => by simp [PathCmd.isHlineToDelta] at hcon⟩
      · exact (head_left _ _ (head_left _ _ (head_left _ _ (head_left _ _ (head_left _ _
          (head_left _ _ (head_left _ _ (by decide)))))))).1
      · rw [last_append_str _ _ (hfmt d).1]
        exact last_not_space_of_not_mem _ (hfmt d).2
    | quadraticBezierToDelta dxc dyc dx dy =>
      intro s hs
      simp only [PathCmd.to_svg] at hs
      obtain ⟨a, h1, hs⟩ := bind_ok_ex hs
      obtain ⟨b, h2, hs⟩ := bind_ok_ex hs
      obtain ⟨c2, h3, hs⟩ := bind_ok_ex hs
      obtain ⟨d, h4, hs⟩ := bind_ok_ex hs
      injection hs with hs
      subst hs
      refine ⟨fun _ => ⟨?_, ?_⟩, fun hcon => by simp [PathCmd.isHlineToDelta] at hcon⟩
      · exact (head_left _ _ (head_left _ _ (head_left _ _ (head_left _ _ (head_left _ _
          (head_left _ _ (head_left _ _ (by decide)))))))).1
      · rw [last_append_str _ _ (hfmt d).1]
        exact last_not_space_of_not_mem _ (hfmt d).2

/-- Witness for the amended C7 at a concrete numeral rendering and path. -/
theorem C7_to_svg_amended_witness :
    (∀ q : ℚ, ((fun _ : ℚ => "0") q).data ≠ [] ∧ ' ' ∉ ((fun _ : ℚ => "0") q).data)
    ∧ (RawPath.to_svg (fun _ : ℚ => "0") [.hlineToDelta ⟨50, .px⟩] true 72 1 =
        ([PathCmd.hlineToDelta ⟨50, .px⟩].mapM (PathCmd.to_svg (fun _ : ℚ => "0") 72 1)).map
          (fun ts => String.intercalate " " ts ++ (if true then " Z" else ""))
      ∧ (∀ c : PathCmd, ∀ s : String,
          PathCmd.to_svg (fun _ : ℚ => "0") 72 1 c = .ok s →
          (c.isHlineToDelta = false →
            s.data.head? ≠ some ' ' ∧ s.data.getLast? ≠ some ' ')
          ∧ (c.isHlineToDelta = true → ∃ q, s = "h " ++ (fun _ : ℚ => "0") q ++ " "))) :=
  ⟨fun _ => (by decide : ("0" : String).data ≠ [] ∧ ' ' ∉ ("0" : String).data),
    C7_to_svg_amended (fun _ => "0")
      (fun _ => (by decide : ("0" : String).data ≠ [] ∧ ' ' ∉ ("0" : String).data))
      [.hlineToDelta ⟨50, .px⟩] true 72 1⟩

/-! ### transforms.py: the affine transform algebra

Real-valued layer.  The pint unit registry built in units.py
(`pint.UnitRegistry(filename=None)`) is modelled by a closed enumeration of
units, each carrying the dimension its defining line gives it and a
conversion factor to the dimension's base unit (millimetre for lengths;
radian for the dimensionless angle units).  The registry defines the
dimensions `[length]`, `[pixel]`, `[percentage]` and `[device]`; crucially
it defines `radian = [] = rad` — dimensionless — and `degree` from radian,
and it never defines an `[angle]` dimension, so `q.check("[angle]")` cannot
return `True` for any quantity (see `TVal.checkAngle`).  `q.check("[dim]")`
for the defined dimensions is a dimension-tag test, and `q.to(u)` a factor
rescaling.  Dynamically typed arguments are values of `TVal`; calling a
quantity method on a non-quantity raises `AttributeError` as in Python. -/

inductive TDim where
  | length
  | pixel
  | device
  | dimensionless
  | percentage
deriving DecidableEq, Repr

inductive TUnit where
  | mm
  | cm
  | inch
  | px
  | device
  | degree
  | radian
  | percent
deriving DecidableEq, Repr

/-- The dimension of each unit under units.py's registry: `radian = []` and
`degree = π/180 * radian` are dimensionless. -/
def TUnit.dim : TUnit → TDim
  | .mm => .length
  | .cm => .length
  | .inch => .length
  | .px => .pixel
  | .device => .device
  | .degree => .dimensionless
  | .radian => .dimensionless
  | .percent => .percentage

/-- Conversion factor to the dimension's base unit. -/
noncomputable def TUnit.factor : TUnit → ℝ
  | .mm => 1
  | .cm => 10
  | .inch => 25.4
  | .px => 1
  | .device => 1
  | .degree => Real.pi / 180
  | .radian => 1
  | .percent => 1

/-- A pint quantity: real magnitude tagged with a unit. -/
structure TQty where
  mag : ℝ
  unit : TUnit

/-- `q.to(u)`: rescale the magnitude through the base unit. -/
noncomputable def TQty.to (q : TQty) (u : TUnit) : TQty :=
  ⟨q.mag * q.unit.factor / u.factor, u⟩

/-- `angle.to(ureg.rad).magnitude`. -/
noncomputable def TQty.toRad (q : TQty) : ℝ := q.mag * q.unit.factor

/-- A dynamically typed Python argument of the transform constructors. -/
inductive TVal where
  | none
  | float (x : ℝ)
  | qty (q : TQty)

def TVal.isNone : TVal → Bool
  | .none => true
  | _ => false

/-- `v.check("[d]")` for a dimension `[d]` that the registry defines
(`[length]`, `[pixel]`, `[device]`, `[percentage]`): dimension test; raises
`AttributeError` when `v` is not a quantity (as the attribute access does in
Python). -/
def TVal.checkDim : TVal → TDim → Except PyErr Bool
  | .qty q, d => .ok (q.unit.dim = d)
  | _, _ => .error .attributeError

/-- `v.check("[angle]")`: the registry of units.py never defines an
`[angle]` dimension (`radian = [] = rad` is dimensionless), so pint cannot
resolve the dimension name and the call raises instead of returning
(`UndefinedUnitError`, a bare `KeyError` in some pint versions — the
embedding does not depend on the class, only on the call not returning
normally; were it instead to return `False`, `Rotate.__init__` line 258
would raise `ValueError`, so in no reading does the angle gate pass).  On a
non-quantity the attribute access raises `AttributeError` first. -/
def TVal.checkAngle : TVal → Except PyErr Bool
  | .qty _ => .error .undefinedUnitError
  | _ => .error .attributeError

/-- The state of a constructed `Rotate` operation. -/
structure RotateOp where
  angle : TQty
  origin : Option (TQty × TQty)

/-- `Rotate.__init__` (transforms.py lines 243-262), check for check: an
origin given only partially raises `ValueError`; a full origin runs
`if not x.check("[length]") or not x.check("[pixel]") or not x.check("[device]")`
— a disjunction that no quantity can falsify, since a unit has exactly one
dimension — before the `isinstance` and same-units checks.  Then a
non-quantity angle raises `TypeError` (line 255), and a quantity angle
reaches `angle.check("[angle]")` (line 257), which never returns `True`
under units.py's registry (see `TVal.checkAngle`), so no `Rotate` is ever
constructed. -/
def RotateOp.init (angle x y : TVal) : Except PyErr RotateOp :=
  if ((!x.isNone) != (!y.isNone)) then .error .valueError
  else do
    let origin ←
      (if (!x.isNone) && (!y.isNone) then do
        let cl ← x.checkDim .length
        let cp ← x.checkDim .pixel
        let cd ← x.checkDim .device
        if (!cl) || (!cp) || (!cd) then Except.error PyErr.typeError
        else
          match x, y with
          | .qty xq, .qty yq =>
            if xq.unit = yq.unit then Except.ok (some (xq, yq))
            else Except.error PyErr.valueError
          | _, _ => Except.error PyErr.typeError
      else Except.ok none)
    match angle with
    | .qty aq => do
      let ca ← TVal.checkAngle (.qty aq)
      if !ca then .error .valueError else .ok ⟨aq, origin⟩
    | _ => .error .typeError

/-- `Translate.__init__` (transforms.py lines 209-217): both coordinates
must be quantities of length, pixel or device dimension with identical
units. -/
def TranslateOp.init (x y : TVal) : Except PyErr (TQty × TQty) :=
  match x, y with
  | .qty xq, .qty yq =>
    if ¬ (xq.unit.dim = .length ∨ xq.unit.dim = .pixel ∨ xq.unit.dim = .device) then
      .error .typeError
    else if xq.unit = yq.unit then .ok (xq, yq)
    else .error .valueError
  | _, _ => .error .typeError

/-- The primitive operations an `Affine` accumulates. -/
inductive Op where
  | translate (x y : TQty)
  | scale (sx sy : ℝ)
  | rotate (r : RotateOp)
  | shear (sx sy : ℝ)
  | skewX (angle : TQty)
  | skewY (angle : TQty)
  | sixmatrix (sa sb sc sd se sf : ℝ)

/-- 3x3 real matrix with explicit entries, row-major. -/
structure Mat3 where
  m00 : ℝ
  m01 : ℝ
  m02 : ℝ
  m10 : ℝ
  m11 : ℝ
  m12 : ℝ
  m20 : ℝ
  m21 : ℝ
  m22 : ℝ

/-- `np.matmul` on 3x3 matrices. -/
def Mat3.mul (A B : Mat3) : Mat3 :=
  ⟨A.m00 * B.m00 + A.m01 * B.m10 + A.m02 * B.m20,
   A.m00 * B.m01 + A.m01 * B.m11 + A.m02 * B.m21,
   A.m00 * B.m02 + A.m01 * B.m12 + A.m02 * B.m22,
   A.m10 * B.m00 + A.m11 * B.m10 + A.m12 * B.m20,
   A.m10 * B.m01 + A.m11 * B.m11 + A.m12 * B.m21,
   A.m10 * B.m02 + A.m11 * B.m12 + A.m12 * B.m22,
   A.m20 * B.m00 + A.m21 * B.m10 + A.m22 * B.m20,
   A.m20 * B.m01 + A.m21 * B.m11 + A.m22 * B.m21,
   A.m20 * B.m02 + A.m21 * B.m12 + A.m22 * B.m22⟩

def Mat3.idm : Mat3 := ⟨1, 0, 0, 0, 1, 0, 0, 0, 1⟩

/-- The `matrix` property of each operation class (transforms.py): the
`SixMatrix` layout is `[[a, c, e], [b, d, f], [0, 0, 1]]`; a `Rotate` with
an explicit origin puts the origin into the bottom row as the source
does. -/
noncomputable def Op.matrix : Op → Mat3
  | .translate x y => ⟨1, 0, x.mag, 0, 1, y.mag, 0, 0, 1⟩
  | .scale sx sy => ⟨sx, 0, 0, 0, sy, 0, 0, 0, 1⟩
  | .shear sx sy => ⟨1, sx, 0, sy, 1, 0, 0, 0, 1⟩
  | .skewX a => ⟨1, Real.tan a.toRad, 0, 0, 1, 0, 0, 0, 1⟩
  | .skewY a => ⟨1, 0, 0, Real.tan a.toRad, 1, 0, 0, 0, 1⟩
  | .rotate r =>
    match r.origin with
    | some (x, y) =>
      ⟨Real.cos r.angle.toRad, -Real.sin r.angle.toRad, 0,
       Real.sin r.angle.toRad, Real.cos r.angle.toRad, 0,
       x.mag, y.mag, 1⟩
    | none =>
      ⟨Real.cos r.angle.toRad, -Real.sin r.angle.toRad, 0,
       Real.sin r.angle.toRad, Real.cos r.angle.toRad, 0,
       0, 0, 1⟩
  | .sixmatrix sa sb sc sd se sf => ⟨sa, sc, se, sb, sd, sf, 0, 0, 1⟩

/-- `Affine`: the fluent operation list (front-insertion) plus the unit
established by the first length-bearing operation. -/
structure Affine where
  ops : List Op
  units : Option TUnit

/-- `identity()` (transforms.py line 339). -/
def Affine.identity : Affine := ⟨[], none⟩

/-- `build_matrix` (transforms.py lines 104-108): start from the identity
and right-multiply each operation's matrix in list order. -/
noncomputable def Affine.build_matrix (a : Affine) : Mat3 :=
  a.ops.foldl (fun m op => m.mul op.matrix) Mat3.idm

/-- `Affine.rotate` (lines 120-129): construct the `Rotate` (front-inserted),
then record or check the transform's unit when an origin was supplied. -/
def Affine.rotate (a : Affine) (angle x y : TVal) : Except PyErr Affine := do
  let r ← RotateOp.init angle x y
  let a2 : Affine := ⟨Op.rotate r :: a.ops, a.units⟩
  if (!x.isNone) && (!y.isNone) then
    match a2.units with
    | some w =>
      match x, y with
      | .qty xq, .qty yq =>
        if ¬ (xq.unit.dim = w.dim) ∨ ¬ (yq.unit.dim = w.dim) then .error .valueError
        else .ok a2
      | _, _ => .error .attributeError
    | none =>
      match x with
      | .qty xq => .ok ⟨a2.ops, some xq.unit⟩
      | _ => .error .attributeError
  else .ok a2

/-- `Affine.translate` (lines 131-140). -/
def Affine.translate (a : Affine) (tx ty : TVal) : Except PyErr Affine := do
  let p ← TranslateOp.init tx ty
  let a2 : Affine := ⟨Op.translate p.1 p.2 :: a.ops, a.units⟩
  match a2.units with
  | some w =>
    if ¬ (p.1.unit.dim = w.dim) ∨ ¬ (p.2.unit.dim = w.dim) then .error .valueError
    else .ok a2
  | none => .ok ⟨a2.ops, some p.1.unit⟩

/-- `Affine.scale` (lines 142-145). -/
def Affine.scale (a : Affine) (sx sy : ℝ) : Affine := ⟨Op.scale sx sy :: a.ops, a.units⟩

/-- `Affine.sixmatrix` (lines 167-170). -/
def Affine.sixmatrix (a : Affine) (sa sb sc sd se sf : ℝ) : Affine :=
  ⟨Op.sixmatrix sa sb sc sd se sf :: a.ops, a.units⟩

/-- `Affine.transform` (lines 39-75), single-point branch: check the point's
units against the transform's, convert, multiply by the matrix, and tag the
results with the transform's unit (or the input's when no unit is set). -/
noncomputable def Affine.transform (af : Affine) (u v : TQty) :
    Except PyErr (TQty × TQty) :=
  let M := af.build_matrix
  match af.units with
  | some w =>
    if u.unit.dim = w.dim ∧ v.unit.dim = w.dim then
      let uu := u.to w
      let vv := v.to w
      .ok (⟨M.m00 * uu.mag + M.m01 * vv.mag + M.m02, w⟩,
           ⟨M.m10 * uu.mag + M.m11 * vv.mag + M.m12, w⟩)
    else .error .valueError
  | none =>
    .ok (⟨M.m00 * u.mag + M.m01 * v.mag + M.m02, u.unit⟩,
         ⟨M.m10 * u.mag + M.m11 * v.mag + M.m12, v.unit⟩)

/-- C4: the translate-then-rotate worked example does not run on the code:
`identity().translate(1mm, 0mm).rotate(90deg)` raises inside
`Rotate.__init__` at `angle.check("[angle]")`, because units.py's registry
defines `radian = []` (dimensionless) and never defines an `[angle]`
dimension — so the chain errors instead of mapping `(0mm, 0mm)` to
`(0mm, 1mm)`, although the repository's own
test_transforms.py::test_translate_rotate asserts exactly that value.  The
`sixmatrix(3, 1, -1, 3, 30, 40)` examples involve no `Rotate` and do hold:
`(10, 10) -> (50, 80)`, `(40, 10) -> (140, 110)`, `(10, 30) -> (30, 140)`,
`(40, 30) -> (120, 170)` (in the single unit `mm` the source test uses),
with the composed matrix produced by front-insertion plus left-fold
`matmul`. -/
theorem C4_translate_rotate_raises_sixmatrix_holds :
    (∃ e, (do
      let a1 ← Affine.identity.translate (.qty ⟨1, .mm⟩) (.qty ⟨0, .mm⟩)
      let a2 ← a1.rotate (.qty ⟨90, .degree⟩) .none .none
      a2.transform ⟨0, .mm⟩ ⟨0, .mm⟩) = .error e)
    ∧ (Affine.identity.sixmatrix 3 1 (-1) 3 30 40).transform ⟨10, .mm⟩ ⟨10, .mm⟩ =
        .ok (⟨50, .mm⟩, ⟨80, .mm⟩)
    ∧ (Affine.identity.sixmatrix 3 1 (-1) 3 30 40).transform ⟨40, .mm⟩ ⟨10, .mm⟩ =
        .ok (⟨140, .mm⟩, ⟨110, .mm⟩)
    ∧ (Affine.identity.sixmatrix 3 1 (-1) 3 30 40).transform ⟨10, .mm⟩ ⟨30, .mm⟩ =
        .ok (⟨30, .mm⟩, ⟨140, .mm⟩)
    ∧ (Affine.identity.sixmatrix 3 1 (-1) 3 30 40).transform ⟨40, .mm⟩ ⟨30, .mm⟩ =
        .ok (⟨120, .mm⟩, ⟨170, .mm⟩) := by
  refine ⟨⟨.undefinedUnitError, ?_⟩, ?_, ?_, ?_, ?_⟩
  · simp [Affine.translate, Affine.rotate, TranslateOp.init, RotateOp.init, TVal.isNone,
      TVal.checkDim, TVal.checkAngle, TUnit.dim, Affine.identity]
  all_goals
    simp [Affine.sixmatrix, Affine.transform, Affine.build_matrix, Mat3.mul, Mat3.idm,
      Op.matrix, Affine.identity, TQty.mk.injEq]
    norm_num

/-- C6: `Rotate` origin handling.  Supplying exactly one of the two origin
coordinates fails with `ValueError`, as the claim says; but supplying both —
even as valid same-unit length quantities — always fails with `TypeError`,
because the dimension check
`not x.check("[length]") or not x.check("[pixel]") or not x.check("[device]")`
demands a unit of all three dimensions at once (compare `Translate.__init__`,
which parenthesises the same test correctly); and supplying neither does not
succeed either, because every quantity angle then reaches
`angle.check("[angle]")`, which cannot pass under units.py's registry (no
`[angle]` dimension exists) — no `Rotate` is constructible at all. -/
theorem C6_rotate_origin_check :
    RotateOp.init (.qty ⟨90, .degree⟩) (.qty ⟨1, .mm⟩) (.qty ⟨1, .mm⟩) = .error .typeError
    ∧ RotateOp.init (.qty ⟨90, .degree⟩) (.qty ⟨1, .mm⟩) .none = .error .valueError
    ∧ RotateOp.init (.qty ⟨90, .degree⟩) .none (.qty ⟨1, .mm⟩) = .error .valueError
    ∧ (∀ aq : TQty, ∃ e, RotateOp.init (.qty aq) .none .none = .error e)
    ∧ ∀ (xq yq : TQty),
        RotateOp.init (.qty ⟨90, .degree⟩) (.qty xq) (.qty yq) = .error .typeError := by
  refine ⟨?_, ?_, ?_, ?_, ?_⟩
  · simp [RotateOp.init, TVal.isNone, TVal.checkDim, TUnit.dim]
  · simp [RotateOp.init, TVal.isNone]
  · simp [RotateOp.init, TVal.isNone]
  · intro aq
    exact ⟨.undefinedUnitError, by simp [RotateOp.init, TVal.isNone, TVal.checkAngle]⟩
  · intro xq yq
    obtain ⟨xm, xu⟩ := xq
    cases xu <;>
      simp [RotateOp.init, TVal.isNone, TVal.checkDim, TUnit.dim]

/-- `np.degrees`. -/
noncomputable def np_degrees (th : ℝ) : ℝ := th * 180 / Real.pi

/-- The return expression of `two_point_align` (align.py line 87):
`identity().rotate(np.degrees(this_th)).translate(tx, ty)`.  The solver loop
(lines 37-79) always terminates — `iter` strictly increases up to
`max_iter`, the inner step-halving loop is bounded by 10 iterations, and no
statement in it raises (the `descend_check_iter==20` guard on line 68 can
never fire since the inner bound is 10) — so control always reaches line 87
with some real angle `this_th` and the analytic translation `tx`, `ty` of
lines 82-83; the return expression is modelled as a function of those three
reals.  Both `rotate` and `translate` receive raw floats here, not pint
quantities. -/
noncomputable def two_point_align_return (this_th tx ty : ℝ) : Except PyErr Affine := do
  let a ← Affine.identity.rotate (.float (np_degrees this_th)) .none .none
  a.translate (.float tx) (.float ty)

/-- C5: `two_point_align` never returns normally: whatever angle and
translation the solver computes, the closing
`identity().rotate(np.degrees(this_th))` passes a raw float where
`Rotate.__init__` requires a pint quantity (`isinstance(angle,
pint.Quantity)`), so the call raises `TypeError` instead of returning the
rotate-then-translate `Affine` the claim (and the repository's own
test_align.py) expects. -/
theorem C5_two_point_align_always_raises (this_th tx ty : ℝ) :
    two_point_align_return this_th tx ty = .error .typeError := by
  rw [two_point_align_return]
  simp [Affine.rotate, RotateOp.init, TVal.isNone, Affine.identity]

/-- Witness for C5 at a concrete solver state. -/
theorem C5_two_point_align_always_raises_witness :
    two_point_align_return 1 2 3 = .error .typeError :=
  C5_two_point_align_always_raises 1 2 3
